import Mathlib

/-! # Link shortener: public redirect page and management API

A shallow embedding of the two request handlers of the repository:

* `getServerSideProps` of `pages/[shortUrl].js`, the visitor-facing redirect
  page, together with its helpers `getClientIp` and `getCountryByIp`;
* `handler` of `pages/api/analytics.ts`, the management endpoint (listing,
  soft delete, permanent delete, edit, restore).

The document collection behind the `Url` model is a list of documents in
storage order.  The collection primitives of the object mapper that the
handlers call (`findOne`, `findById`, `findOneAndUpdate`, `findByIdAndDelete`,
`findByIdAndUpdate`, `updateOne`, `save`) are functions on that list; each of
them acts on the first document that matches its filter.  Functions do not
require the list to be well formed (identifiers pairwise distinct); theorems
that need it say so through `UniqueIds`.

Time is a number of milliseconds since the epoch, an integer.
-/

namespace Share

/-! ## Data model -/

/-- Identifier of a stored document.  The 12-byte identifiers of the database
are represented by natural numbers; two identifiers are equal exactly when
their hexadecimal renderings are equal. -/
abbrev ObjectId := Nat

/-- One element of `accesses.lastAccessed`, as pushed by the redirect page. -/
structure VisitEvent where
  date : Int
  userAgent : String
  referrer : String
  country : String
deriving DecidableEq, Repr

/-- The embedded analytics sub-document `accesses`. -/
structure Accesses where
  count : Int
  lastAccessed : List VisitEvent
deriving DecidableEq, Repr

/-- Modelled from the spec: the schema of the `Url` model (`models/url`) is
not among the sources; the fields are those the handlers and the dashboard
read or write, with the types the data model of the specification gives them.
A `Date` is its epoch time in milliseconds, `null` is `none`. -/
structure Url where
  _id : ObjectId
  shortenUrl : String
  originalUrl : String
  isActive : Bool
  isDeleted : Bool
  deletedAt : Option Int
  expirationDate : Option Int
  scheduledDate : Option Int
  createdAt : Int
  updatedAt : Int
  accesses : Accesses
deriving DecidableEq, Repr

/-- The collection: documents in storage order. -/
abbrev Store := List Url

/-- Which of the awaited database calls of a request throws.  `connect` is
`dbConnect`, `read` the lookup that follows it, `write` the update, delete or
save that ends the request.  A call that throws leaves the collection as it
was. -/
structure Faults where
  connect : Bool
  read : Bool
  write : Bool
deriving DecidableEq, Repr

/-- Every database call succeeds. -/
def noFaults : Faults := ⟨false, false, false⟩

/-! ## Collection primitives -/

/-- First document satisfying `p` replaced by its image under `f`. -/
def modifyFirst (p : Url → Bool) (f : Url → Url) : Store → Store
  | [] => []
  | u :: us => if p u then f u :: us else u :: modifyFirst p f us

/-- First document satisfying `p` removed. -/
def removeFirst (p : Url → Bool) : Store → Store
  | [] => []
  | u :: us => if p u then us else u :: removeFirst p us

/-- The lookup by identifier: `Url.findById(id)` and `Url.findOne({ _id: id })`. -/
def findById (s : Store) (id : ObjectId) : Option Url :=
  s.find? (fun u => u._id == id)

/-- The lookup by short code: `Url.findOne({ shortenUrl })`. -/
def findOneByShortenUrl (s : Store) (shortenUrl : String) : Option Url :=
  s.find? (fun u => u.shortenUrl == shortenUrl)

/-- Modelled from the spec: `updatedAt` is maintained by the store; a write
through the model stamps the written document with the time of the write. -/
def touch (now : Int) (u : Url) : Url :=
  { u with updatedAt := now }

/-- Keeps the last `n` elements: the `$slice: -n` modifier of `$push`. -/
def sliceLast (n : Nat) (xs : List VisitEvent) : List VisitEvent :=
  xs.drop (xs.length - n)

/-- The update document of the redirect page applied to one document:
`$inc` of `accesses.count` by one, `$push` of the event with `$slice: -100`. -/
def recordAccess (now : Int) (ev : VisitEvent) (u : Url) : Url :=
  touch now
    { u with accesses :=
        { count := u.accesses.count + 1
          lastAccessed := sliceLast 100 (u.accesses.lastAccessed ++ [ev]) } }

/-- The call `Url.updateOne({ shortenUrl }, update, { upsert: true })` of the
redirect page.  With no matching document the upsert inserts one; the
document the schema would create for short code `c` before the update is
applied is `schemaDefault c`, a parameter since the schema is not among the
sources. -/
def updateOneAccess (schemaDefault : String → Url) (now : Int) (s : Store)
    (shortenUrl : String) (ev : VisitEvent) : Store :=
  if s.any (fun u => u.shortenUrl == shortenUrl) then
    modifyFirst (fun u => u.shortenUrl == shortenUrl) (recordAccess now ev) s
  else
    s ++ [recordAccess now ev (schemaDefault shortenUrl)]

/-- The call `Url.findOneAndUpdate({ _id: id }, { $set: { isDeleted: true,
deletedAt: new Date() } }, { new: true })`: the updated document, if any, and
the collection afterwards. -/
def findOneAndUpdateDeleted (now : Int) (s : Store) (id : ObjectId) :
    Option Url × Store :=
  let upd : Url → Url := fun u => touch now { u with isDeleted := true, deletedAt := some now }
  ((findById s id).map upd, modifyFirst (fun u => u._id == id) upd s)

/-- The call `Url.findByIdAndDelete(id)`: the deleted document, if any, and the
collection afterwards. -/
def findByIdAndDelete (s : Store) (id : ObjectId) : Option Url × Store :=
  (findById s id, removeFirst (fun u => u._id == id) s)

/-- The call `Url.findByIdAndUpdate(id, updateData, { new: true })` of the edit
path, which sets the three editable fields. -/
def findByIdAndUpdate (now : Int) (s : Store) (id : ObjectId) (shortenUrl : String)
    (expirationDate scheduledDate : Option Int) : Option Url × Store :=
  let upd : Url → Url := fun u =>
    touch now { u with shortenUrl := shortenUrl
                       expirationDate := expirationDate
                       scheduledDate := scheduledDate }
  ((findById s id).map upd, modifyFirst (fun u => u._id == id) upd s)

/-- The call `url.save()` on a fetched and then modified document: the stored
document with the same identifier is replaced by it. -/
def save (now : Int) (s : Store) (url : Url) : Store :=
  modifyFirst (fun u => u._id == url._id) (fun _ => touch now url) s

/-! ## The redirect page, `pages/[shortUrl].js` -/

/-- The value of `a || d` for an optional string `a`: `d` when `a` is
`undefined` or empty. -/
def orDefault (a : Option String) (d : String) : String :=
  match a with
  | some v => if v = "" then d else v
  | none => d

/-- The headers the redirect page reads. -/
structure Headers where
  xForwardedFor : Option String
  userAgent : Option String
  referer : Option String
deriving DecidableEq, Repr

/-- The incoming request of the redirect page. -/
structure PageRequest where
  headers : Headers
  connectionRemoteAddress : Option String
  socketRemoteAddress : Option String
deriving DecidableEq, Repr

/-- The argument of `getServerSideProps`: `params.shortUrl` and `req`. -/
structure Context where
  shortUrl : String
  req : PageRequest
deriving DecidableEq, Repr

/-- What `getServerSideProps` returns. -/
inductive PageResult where
  | notFound
  | redirect (destination : String) (permanent : Bool)
deriving DecidableEq, Repr

/-- How a call of the page function ends: it returns props, or the error of
an awaited call propagates to the framework. -/
inductive PageOutcome where
  | returned (props : PageResult)
  | threw
deriving DecidableEq, Repr

/-- What the request to the geolocation service does: it throws, or it
answers with a body whose `country` field may be missing. -/
inductive GeoReply where
  | failed
  | data (country : Option String)
deriving DecidableEq, Repr

/-- Address of the visitor: first element of `x-forwarded-for` when that
header is present and non-empty, else the remote address of the connection,
else that of the socket. -/
def getClientIp (req : PageRequest) : Option String :=
  match req.headers.xForwardedFor with
  | some forwarded =>
    if forwarded ≠ "" then some ((forwarded.splitOn ",").headD "")
    else if orDefault req.connectionRemoteAddress "" ≠ "" then req.connectionRemoteAddress
    else req.socketRemoteAddress
  | none =>
    if orDefault req.connectionRemoteAddress "" ≠ "" then req.connectionRemoteAddress
    else req.socketRemoteAddress

/-- Country of the visitor.  The request goes to a fixed address; the
argument `ip` is not used. -/
def getCountryByIp (reply : GeoReply) (_ip : Option String) : String :=
  match reply with
  | .data country => orDefault country "Unknown"
  | .failed => "Unknown"

/-- The test `/^https?:\/\//i`: the string starts with `http://` or
`https://`, letters compared without regard to case. -/
def hasScheme (originalUrl : String) : Bool :=
  let cs := originalUrl.toList.map Char.toLower
  "http://".toList.isPrefixOf cs || "https://".toList.isPrefixOf cs

/-- The redirect target computed from the stored destination. -/
def normalizeUrl (originalUrl : String) : String :=
  if hasScheme originalUrl then originalUrl else "https://" ++ originalUrl

/-- The event the page pushes for a visit: the object literal passed to
`$each`, with the defaults of the user agent, the referrer and the country. -/
def visitEvent (geo : GeoReply) (currentTime : Int) (req : PageRequest) : VisitEvent :=
  { date := currentTime
    userAgent := orDefault req.headers.userAgent "Unknown"
    referrer := orDefault req.headers.referer "Direct"
    country := getCountryByIp geo (getClientIp req) }

/-- The page function.  `dbConnect` is awaited outside the `try`, so its error
propagates; every error raised inside the `try` is caught and answered with
`notFound`.  The second component is the collection afterwards. -/
def getServerSideProps (schemaDefault : String → Url) (faults : Faults) (geo : GeoReply)
    (currentTime : Int) (s : Store) (context : Context) :
    PageOutcome × Store :=
  let shortUrl := context.shortUrl
  let req := context.req
  if faults.connect then (.threw, s)
  else if faults.read then (.returned .notFound, s)
  else
    match findOneByShortenUrl s shortUrl with
    | some urlDocument =>
      if urlDocument.isActive == false then (.returned .notFound, s)
      else
        let clientIp := getClientIp req
        let userAgent := orDefault req.headers.userAgent "Unknown"
        let referrer := orDefault req.headers.referer "Direct"
        let country := getCountryByIp geo clientIp
        if faults.write then (.returned .notFound, s)
        else
          let s1 := updateOneAccess schemaDefault currentTime s shortUrl
            { date := currentTime, userAgent := userAgent, referrer := referrer,
              country := country }
          (.returned (.redirect (normalizeUrl urlDocument.originalUrl) false), s1)
    | none => (.returned .notFound, s)

/-! ## The management endpoint, `pages/api/analytics.ts` -/

/-- A value of the parsed request body. -/
inductive JsValue where
  | undefined
  | null
  | bool (b : Bool)
  | num (n : Int)
  | str (v : String)
  | obj
deriving DecidableEq, Repr

/-- Truthiness of a value, as tested by `!v` and `v ? a : b`. -/
def JsValue.truthy : JsValue → Bool
  | .undefined => false
  | .null => false
  | .bool b => b
  | .num n => n != 0
  | .str v => v != ""
  | .obj => true

/-- The query parameters the endpoint reads.  `id` is `none` when the
parameter is absent or empty and `some i` when its text is a rendering of the
identifier `i`, the identifier the collection primitives look up.
`idCanonical` tells whether that text is the rendering that `toString()` gives
for `i`, 24 lower-case hexadecimal digits; the same digits in upper case are
another text for the same identifier. -/
structure Query where
  action : Option String
  id : Option ObjectId
  idCanonical : Bool
deriving DecidableEq, Repr

/-- The test `existingUrl._id.toString() !== id` of the edit path, a
comparison of strings: the rendering of the identifier `existing` differs from
the text of the parameter unless the parameter stands for `existing` and is
its canonical rendering. -/
def idTextDiffers (existing : ObjectId) (query : Query) : Bool :=
  !(query.id == some existing && query.idCanonical)

/-- The fields the edit path takes from the request body. -/
structure Body where
  shortenUrl : JsValue
  expirationDate : JsValue
  scheduledDate : JsValue
deriving DecidableEq, Repr

/-- The incoming request of the management endpoint. -/
structure Request where
  method : String
  query : Query
  body : Body
deriving DecidableEq, Repr

/-- The JSON document of a response. -/
inductive Payload where
  | message (text : String)
  | error (text : String)
  | urls (docs : List Url)
deriving DecidableEq, Repr

/-- What the endpoint sends: `res.status(status).json(json)`. -/
structure Response where
  status : Nat
  json : Payload
deriving DecidableEq, Repr

/-- Date of the most recent visit of a document, if it has any. -/
def latestVisit (u : Url) : Option Int :=
  u.accesses.lastAccessed.foldl
    (fun acc ev => match acc with
      | some d => some (max d ev.date)
      | none => some ev.date) none

/-- Order of the `recent-ten` listing: descending by the most recent visit,
documents never visited last. -/
def visitedNoEarlier (a b : Url) : Bool :=
  match latestVisit a, latestVisit b with
  | _, none => true
  | none, some _ => false
  | some x, some y => decide (y ≤ x)

/-- The query of the `recent-ten` listing: sorted by visit date, newest first,
limited to ten documents.  Every document of the model has the array
`accesses.lastAccessed`, so the `$exists` filter keeps all of them. -/
def recentTen (s : Store) : List Url :=
  (s.insertionSort (fun a b => visitedNoEarlier a b = true)).take 10

/-- The value stored for an optional date of the body:
`v ? new Date(v) : null`, where `toDate v` is the epoch time of `new Date(v)`. -/
def optionalDate (toDate : JsValue → Int) (v : JsValue) : Option Int :=
  if v.truthy then some (toDate v) else none

/-- The width of the recovery window, `60 * 60 * 1000` milliseconds. -/
def recoveryWindow : Int := 60 * 60 * 1000

/-- The `DELETE` branch.  The destructured parameter `permanent` is never
read; the kind of deletion is chosen by `action`. -/
def handleDelete (faults : Faults) (now : Int) (s : Store) (req : Request) :
    Response × Store :=
  match req.query.id with
  | none => (⟨400, .message "URL ID is required"⟩, s)
  | some id =>
    if faults.read then (⟨500, .message "Server error"⟩, s)
    else
      match findById s id with
      | none => (⟨404, .message "URL not found"⟩, s)
      | some url =>
        if req.query.action ≠ some "permanent" then
          if url.isDeleted then (⟨400, .message "URL has already been deleted"⟩, s)
          else if faults.write then (⟨500, .message "Server error"⟩, s)
          else
            match findOneAndUpdateDeleted now s id with
            | (none, s1) => (⟨404, .message "URL not found"⟩, s1)
            | (some _, s1) => (⟨200, .message "URL deleted successfully"⟩, s1)
        else if faults.write then (⟨500, .message "Server error"⟩, s)
        else
          match findByIdAndDelete s id with
          | (none, s1) => (⟨404, .message "URL not found"⟩, s1)
          | (some _, s1) => (⟨200, .message "URL permanently deleted"⟩, s1)

/-- The `PUT` branch. -/
def handlePut (toDate : JsValue → Int) (faults : Faults) (now : Int) (s : Store)
    (req : Request) : Response × Store :=
  match req.query.id with
  | none => (⟨400, .message "URL ID is required"⟩, s)
  | some id =>
    if !req.body.shortenUrl.truthy then (⟨400, .message "Shorten URL is required"⟩, s)
    else
      match req.body.shortenUrl with
      | .str shortenUrl =>
        if faults.read then (⟨500, .message "Server error"⟩, s)
        else if (findOneByShortenUrl s shortenUrl).any
            (fun existingUrl => idTextDiffers existingUrl._id req.query)
        then (⟨400, .message "Shortened URL must be unique"⟩, s)
        else if faults.write then (⟨500, .message "Server error"⟩, s)
        else
          match findByIdAndUpdate now s id shortenUrl
              (optionalDate toDate req.body.expirationDate)
              (optionalDate toDate req.body.scheduledDate) with
          | (none, s1) => (⟨404, .message "URL not found"⟩, s1)
          | (some _, s1) => (⟨200, .message "URL updated successfully"⟩, s1)
      | _ => (⟨400, .message "Shorten URL must be a string"⟩, s)

/-- The `POST` branch with `action=restore`. -/
def handleRestore (faults : Faults) (now : Int) (s : Store) (req : Request) :
    Response × Store :=
  match req.query.id with
  | none => (⟨400, .message "URL ID is required"⟩, s)
  | some id =>
    if faults.read then (⟨500, .message "Server error"⟩, s)
    else
      match findById s id with
      | none => (⟨404, .message "URL not found"⟩, s)
      | some url =>
        match url.deletedAt with
        | some deletedAt =>
          if now - deletedAt ≤ recoveryWindow then
            if faults.write then (⟨500, .message "Server error"⟩, s)
            else
              (⟨200, .message "URL restored successfully"⟩,
                save now s { url with deletedAt := none, isDeleted := false })
          else
            (⟨400, .message "URL is past the recovery window or not marked as deleted"⟩, s)
        | none =>
          (⟨400, .message "URL is past the recovery window or not marked as deleted"⟩, s)

/-- The endpoint.  `isAuthenticated` is the result of `authenticate(req, res)`;
when it is false the handler returns without sending anything itself.  The
plain listing filters on the absence of a field `q`, which no document of the
model has, so it returns the whole collection.  The result is the response
sent, if any, and the collection afterwards. -/
def handler (toDate : JsValue → Int) (isAuthenticated : Bool) (faults : Faults) (now : Int)
    (s : Store) (req : Request) : Option Response × Store :=
  if !isAuthenticated then (none, s)
  else if faults.connect then (some ⟨500, .message "Server error"⟩, s)
  else if req.method = "GET" ∧ req.query.action = some "recent-ten" then
    if faults.read then (some ⟨500, .error "Failed to fetch URLs"⟩, s)
    else (some ⟨200, .urls (recentTen s)⟩, s)
  else if req.method = "GET" then
    if faults.read then (some ⟨500, .message "Server error"⟩, s)
    else (some ⟨200, .urls s⟩, s)
  else if req.method = "DELETE" then
    let r := handleDelete faults now s req
    (some r.1, r.2)
  else if req.method = "PUT" then
    let r := handlePut toDate faults now s req
    (some r.1, r.2)
  else if req.method = "POST" ∧ req.query.action = some "restore" then
    let r := handleRestore faults now s req
    (some r.1, r.2)
  else (some ⟨405, .message "Method Not Allowed"⟩, s)

/-! ## Predicates on the collection -/

/-- Identifiers are pairwise distinct: the primary-key constraint of the
collection. -/
def UniqueIds (s : Store) : Prop :=
  (s.map (fun u => u._id)).Nodup

/-- No two documents share a short code. -/
def UniqueShortCodes (s : Store) : Prop :=
  (s.map (fun u => u.shortenUrl)).Nodup

/-- The soft-delete flag and the deletion time of a document agree. -/
def Consistent (u : Url) : Prop :=
  u.isDeleted = true ↔ u.deletedAt ≠ none

/-- Every document of the collection is consistent. -/
def StoreConsistent (s : Store) : Prop :=
  ∀ u ∈ s, Consistent u

instance (s : Store) : Decidable (UniqueIds s) := by
  unfold UniqueIds; infer_instance

instance (s : Store) : Decidable (UniqueShortCodes s) := by
  unfold UniqueShortCodes; infer_instance

instance (u : Url) : Decidable (Consistent u) := by
  unfold Consistent; infer_instance

instance (s : Store) : Decidable (StoreConsistent s) := by
  unfold StoreConsistent; infer_instance

/-! ## Sample data -/

/-- An active link that was never deleted. -/
def sampleLink : Url :=
  { _id := 1, shortenUrl := "docs", originalUrl := "example.com", isActive := true,
    isDeleted := false, deletedAt := none, expirationDate := none, scheduledDate := none,
    createdAt := 0, updatedAt := 0, accesses := { count := 0, lastAccessed := [] } }

/-- A link soft-deleted at time 1000 and still active. -/
def sampleDeleted : Url :=
  { sampleLink with _id := 2, shortenUrl := "old", originalUrl := "https://example.com",
                    isDeleted := true, deletedAt := some 1000 }

/-- A deactivated link. -/
def sampleInactive : Url :=
  { sampleLink with _id := 3, shortenUrl := "off", isActive := false }

/-- A collection of three links. -/
def sampleStore : Store := [sampleLink, sampleDeleted, sampleInactive]

/-- A request body without any of the editable fields. -/
def emptyBody : Body := ⟨.undefined, .undefined, .undefined⟩

/-- A management request with the given method, action and identifier, the
identifier in its canonical rendering. -/
def sampleRequest (method : String) (action : Option String) (id : ObjectId) : Request :=
  ⟨method, ⟨action, some id, true⟩, emptyBody⟩

/-- A visit of the short code `code` by a client that sends no headers. -/
def sampleVisit (code : String) : Context :=
  ⟨code, ⟨⟨none, none, none⟩, none, none⟩⟩

/-- The reading of a date of the body used in the examples. -/
def sampleToDate (v : JsValue) : Int :=
  match v with
  | .num n => n
  | _ => 0

/-- An edit request for identifier `id`, in its canonical rendering, that
supplies only a short code. -/
def editRequest (id : ObjectId) (shortenUrl : String) : Request :=
  ⟨"PUT", ⟨none, some id, true⟩, ⟨.str shortenUrl, .undefined, .undefined⟩⟩

/-- The same edit request with the identifier written in upper-case
hexadecimal digits. -/
def editRequestUpperCase (id : ObjectId) (shortenUrl : String) : Request :=
  ⟨"PUT", ⟨none, some id, false⟩, ⟨.str shortenUrl, .undefined, .undefined⟩⟩

/-- The update of the collection throws; connecting and reading succeed. -/
def writeFault : Faults := ⟨false, false, true⟩

/-! ## Lemmas on the collection primitives -/

theorem find?_modifyFirst_same (p : Url → Bool) (f : Url → Url)
    (hf : ∀ u, p u = true → p (f u) = true) (s : Store) :
    (modifyFirst p f s).find? p = (s.find? p).map f := by
  induction s with
  | nil => rfl
  | cons u us ih =>
    by_cases hu : p u = true
    · simp [modifyFirst, hu, hf u hu]
    · simp [modifyFirst, hu, ih]

theorem find?_modifyFirst_other (p q : Url → Bool) (f : Url → Url)
    (hq : ∀ u, p u = true → q (f u) = false) (hpq : ∀ u, p u = true → q u = false)
    (s : Store) :
    (modifyFirst p f s).find? q = s.find? q := by
  induction s with
  | nil => rfl
  | cons u us ih =>
    by_cases hu : p u = true
    · have h1 : q u = false := hpq u hu
      have h2 : q (f u) = false := hq u hu
      simp [modifyFirst, hu, h1, h2]
    · by_cases hqu : q u = true
      · simp [modifyFirst, hu, hqu]
      · simp [modifyFirst, hu, hqu, ih]

theorem mem_modifyFirst (p : Url → Bool) (f : Url → Url) (s : Store) (v : Url)
    (hv : v ∈ modifyFirst p f s) : v ∈ s ∨ ∃ u ∈ s, p u = true ∧ v = f u := by
  induction s with
  | nil => simp [modifyFirst] at hv
  | cons u us ih =>
    by_cases hu : p u = true
    · simp only [modifyFirst, hu, if_true, List.mem_cons] at hv
      rcases hv with h | h
      · exact Or.inr ⟨u, List.mem_cons_self _ _, hu, h⟩
      · exact Or.inl (List.mem_cons_of_mem _ h)
    · simp only [modifyFirst, hu, Bool.false_eq_true, if_false, List.mem_cons] at hv
      rcases hv with h | h
      · exact Or.inl (h ▸ List.mem_cons_self _ _)
      · rcases ih h with h1 | ⟨w, hw, hpw, hvw⟩
        · exact Or.inl (List.mem_cons_of_mem _ h1)
        · exact Or.inr ⟨w, List.mem_cons_of_mem _ hw, hpw, hvw⟩

theorem mem_removeFirst (p : Url → Bool) (s : Store) (v : Url)
    (hv : v ∈ removeFirst p s) : v ∈ s := by
  induction s with
  | nil => simp [removeFirst] at hv
  | cons u us ih =>
    by_cases hu : p u = true
    · simp only [removeFirst, hu, if_true] at hv
      exact List.mem_cons_of_mem _ hv
    · simp only [removeFirst, hu, Bool.false_eq_true, if_false, List.mem_cons] at hv
      rcases hv with h | h
      · exact h ▸ List.mem_cons_self _ _
      · exact List.mem_cons_of_mem _ (ih h)

theorem removeFirst_eq_filter (s : Store) (id : ObjectId) (hs : UniqueIds s) :
    removeFirst (fun u => u._id == id) s = s.filter (fun u => u._id != id) := by
  induction s with
  | nil => rfl
  | cons u us ih =>
    have hnd : u._id ∉ us.map (fun w => w._id) ∧ UniqueIds us := by
      simpa [UniqueIds] using hs
    by_cases hu : u._id = id
    · have hall : ∀ w ∈ us, (w._id != id) = true := by
        intro w hw
        have : w._id ≠ u._id := fun h => hnd.1 (List.mem_map.mpr ⟨w, hw, h⟩)
        simpa [hu] using this
      simp [removeFirst, hu, List.filter_eq_self.mpr hall]
    · simp [removeFirst, hu, ih hnd.2]

theorem findById_modify (s : Store) (id : ObjectId) (f : Url → Url)
    (hf : ∀ u, u._id = id → (f u)._id = id) :
    findById (modifyFirst (fun u => u._id == id) f s) id = (findById s id).map f := by
  unfold findById
  exact find?_modifyFirst_same _ f (fun u hu => by simpa using hf u (by simpa using hu)) s

theorem findById_modify_ne (s : Store) (id j : ObjectId) (f : Url → Url)
    (hf : ∀ u, u._id = id → (f u)._id = id) (hj : j ≠ id) :
    findById (modifyFirst (fun u => u._id == id) f s) j = findById s j := by
  unfold findById
  refine find?_modifyFirst_other _ _ f ?_ ?_ s
  · intro u hu
    have h1 : u._id = id := by simpa using hu
    simpa [hf u h1] using hj.symm
  · intro u hu
    have h1 : u._id = id := by simpa using hu
    simpa [h1] using hj.symm

theorem findById_some_id (s : Store) (id : ObjectId) (u : Url)
    (h : findById s id = some u) : u._id = id := by
  have := List.find?_some h
  simpa using this

theorem findById_mem (s : Store) (id : ObjectId) (u : Url)
    (h : findById s id = some u) : u ∈ s :=
  List.mem_of_find?_eq_some h

/-! ## The branches of the management endpoint -/

theorem handler_restore_eq (toDate : JsValue → Int) (now : Int) (s : Store) (req : Request)
    (id : ObjectId) (hm : req.method = "POST") (ha : req.query.action = some "restore")
    (hid : req.query.id = some id) :
    handler toDate true noFaults now s req =
      match findById s id with
      | none => (some ⟨404, .message "URL not found"⟩, s)
      | some url =>
        match url.deletedAt with
        | some d =>
          if now - d ≤ 3600000 then
            (some ⟨200, .message "URL restored successfully"⟩,
              save now s { url with deletedAt := none, isDeleted := false })
          else
            (some ⟨400, .message "URL is past the recovery window or not marked as deleted"⟩, s)
        | none =>
          (some ⟨400, .message "URL is past the recovery window or not marked as deleted"⟩, s) := by
  simp only [handler, noFaults, hm, ha, handleRestore, hid, recoveryWindow]
  cases findById s id with
  | none => simp
  | some url =>
    cases hd : url.deletedAt with
    | none => simp [hd]
    | some d =>
      by_cases hw : now - d ≤ 3600000
      · simp [hd, hw]
      · simp [hd, hw]

theorem handler_softDelete_eq (toDate : JsValue → Int) (now : Int) (s : Store) (req : Request)
    (id : ObjectId) (hm : req.method = "DELETE") (ha : req.query.action ≠ some "permanent")
    (hid : req.query.id = some id) :
    handler toDate true noFaults now s req =
      match findById s id with
      | none => (some ⟨404, .message "URL not found"⟩, s)
      | some url =>
        if url.isDeleted = true then
          (some ⟨400, .message "URL has already been deleted"⟩, s)
        else
          (some ⟨200, .message "URL deleted successfully"⟩,
            modifyFirst (fun u => u._id == id)
              (fun u => { u with isDeleted := true, deletedAt := some now, updatedAt := now }) s) := by
  simp only [handler, noFaults, hm, handleDelete, hid]
  cases hf : findById s id with
  | none => simp
  | some url =>
    by_cases hd : url.isDeleted = true
    · simp [ha, hd]
    · simp [ha, hd, findOneAndUpdateDeleted, hf, touch]

/-! ## Restore and soft delete -/

/-- C1: a restore request (POST with action=restore) for identifier `id`
succeeds exactly when a document with that identifier exists, its `deletedAt`
is set and `now - deletedAt` is at most 3,600,000 ms; on success the document
ends with `isDeleted = false` and `deletedAt = null`; with no such document
the answer is 404 "URL not found", and in every other case 400 with the
recovery-window message.  A deletion 59 minutes ago is restored, one 61
minutes ago is not. -/
theorem restore_iff_within_recovery_window (toDate : JsValue → Int) (now : Int) (s : Store)
    (req : Request) (id : ObjectId) (hm : req.method = "POST")
    (ha : req.query.action = some "restore") (hid : req.query.id = some id) :
    ((handler toDate true noFaults now s req).1
        = some ⟨200, .message "URL restored successfully"⟩ ↔
      ∃ url d, findById s id = some url ∧ url.deletedAt = some d ∧ now - d ≤ 3600000) ∧
    (∀ url d, findById s id = some url → url.deletedAt = some d → now - d ≤ 3600000 →
      findById (handler toDate true noFaults now s req).2 id
        = some { url with deletedAt := none, isDeleted := false, updatedAt := now }) ∧
    (findById s id = none →
      handler toDate true noFaults now s req = (some ⟨404, .message "URL not found"⟩, s)) ∧
    (∀ url, findById s id = some url →
      (∀ d, url.deletedAt = some d → ¬ now - d ≤ 3600000) →
      handler toDate true noFaults now s req
        = (some ⟨400, .message "URL is past the recovery window or not marked as deleted"⟩,
            s)) ∧
    (∀ url, findById s id = some url → url.deletedAt = some (now - 59 * 60 * 1000) →
      (handler toDate true noFaults now s req).1
        = some ⟨200, .message "URL restored successfully"⟩) ∧
    (∀ url, findById s id = some url → url.deletedAt = some (now - 61 * 60 * 1000) →
      (handler toDate true noFaults now s req).1
        = some ⟨400, .message "URL is past the recovery window or not marked as deleted"⟩) := by
  have key := handler_restore_eq toDate now s req id hm ha hid
  refine ⟨?_, ?_, ?_, ?_, ?_, ?_⟩
  · rw [key]
    cases hf : findById s id with
    | none => simp
    | some url =>
      cases hd : url.deletedAt with
      | none => simp [hd]
      | some d =>
        by_cases hw : now - d ≤ 3600000
        · simp only [hd, if_pos hw]
          exact ⟨fun _ => ⟨url, d, rfl, hd, hw⟩, fun _ => by trivial⟩
        · simp only [hd, if_neg hw]
          constructor
          · intro h
            simp at h
          · rintro ⟨url1, d1, h1, h2, h3⟩
            cases h1
            rw [hd] at h2
            cases h2
            exact absurd h3 hw
  · intro url d hf hd hw
    rw [key, hf]
    simp only [hd, if_pos hw]
    have hidu : url._id = id := findById_some_id s id url hf
    unfold save
    simp only [hidu]
    rw [findById_modify, hf]
    · rfl
    · intro _ _
      rfl
  · intro hf
    rw [key, hf]
  · intro url hf hno
    rw [key, hf]
    cases hd : url.deletedAt with
    | none => simp only [hd]
    | some d => simp only [hd, if_neg (hno d hd)]
  · intro url hf hd
    rw [key, hf]
    have hw : now - (now - 59 * 60 * 1000) ≤ 3600000 := by omega
    simp only [hd, if_pos hw]
  · intro url hf hd
    rw [key, hf]
    have hw : ¬ now - (now - 61 * 60 * 1000) ≤ 3600000 := by omega
    simp only [hd, if_neg hw]

/-- A link deleted at time 1000 is restored by a request made 59 minutes
later. -/
theorem restore_iff_within_recovery_window_witness :
    (sampleRequest "POST" (some "restore") 2).method = "POST" ∧
    (sampleRequest "POST" (some "restore") 2).query.action = some "restore" ∧
    (sampleRequest "POST" (some "restore") 2).query.id = some 2 ∧
    (handler sampleToDate true noFaults 3541000 sampleStore
        (sampleRequest "POST" (some "restore") 2)).1
      = some ⟨200, .message "URL restored successfully"⟩ :=
  ⟨rfl, rfl, rfl,
    (restore_iff_within_recovery_window sampleToDate 3541000 sampleStore
      (sampleRequest "POST" (some "restore") 2) 2 rfl rfl rfl).2.2.2.2.1
      sampleDeleted (by decide) (by decide)⟩

/-- C2: a DELETE request without action=permanent for identifier `id` answers
404 "URL not found" when no document has that identifier, 400 "URL has
already been deleted" when the document has `isDeleted` set, and otherwise
200, leaving the document with `isDeleted = true` and `deletedAt` equal to
the current time and every other document as it was. -/
theorem softDelete_outcomes (toDate : JsValue → Int) (now : Int) (s : Store)
    (req : Request) (id : ObjectId) (hm : req.method = "DELETE")
    (ha : req.query.action ≠ some "permanent") (hid : req.query.id = some id) :
    (findById s id = none →
      handler toDate true noFaults now s req = (some ⟨404, .message "URL not found"⟩, s)) ∧
    (∀ url, findById s id = some url → url.isDeleted = true →
      handler toDate true noFaults now s req
        = (some ⟨400, .message "URL has already been deleted"⟩, s)) ∧
    (∀ url, findById s id = some url → url.isDeleted = false →
      (handler toDate true noFaults now s req).1
          = some ⟨200, .message "URL deleted successfully"⟩ ∧
      findById (handler toDate true noFaults now s req).2 id
          = some { url with isDeleted := true, deletedAt := some now, updatedAt := now } ∧
      ∀ j, j ≠ id → findById (handler toDate true noFaults now s req).2 j = findById s j) := by
  have key := handler_softDelete_eq toDate now s req id hm ha hid
  refine ⟨?_, ?_, ?_⟩
  · intro hf
    rw [key, hf]
  · intro url hf hd
    rw [key, hf]
    simp [hd]
  · intro url hf hd
    rw [key, hf]
    have hnd : ¬ url.isDeleted = true := by simp [hd]
    simp only [if_neg hnd]
    refine ⟨by trivial, ?_, ?_⟩
    · rw [findById_modify, hf]
      · rfl
      · intro _ h
        exact h
    · intro j hj
      exact findById_modify_ne s id j _ (fun _ h => h) hj

/-- A soft delete of the first sample link at time 5000 marks it deleted at
that time. -/
theorem softDelete_outcomes_witness :
    (sampleRequest "DELETE" none 1).method = "DELETE" ∧
    (sampleRequest "DELETE" none 1).query.action ≠ some "permanent" ∧
    (sampleRequest "DELETE" none 1).query.id = some 1 ∧
    findById (handler sampleToDate true noFaults 5000 sampleStore
        (sampleRequest "DELETE" none 1)).2 1
      = some { sampleLink with isDeleted := true, deletedAt := some 5000, updatedAt := 5000 } :=
  ⟨rfl, by decide, rfl,
    ((softDelete_outcomes sampleToDate 5000 sampleStore (sampleRequest "DELETE" none 1) 1
      rfl (by decide) rfl).2.2 sampleLink (by decide) (by decide)).2.1⟩

/-! ## Permanent delete -/

theorem handler_permanentDelete_eq (toDate : JsValue → Int) (now : Int) (s : Store)
    (req : Request) (id : ObjectId) (hm : req.method = "DELETE")
    (ha : req.query.action = some "permanent") (hid : req.query.id = some id) :
    handler toDate true noFaults now s req =
      match findById s id with
      | none => (some ⟨404, .message "URL not found"⟩, s)
      | some _ =>
        (some ⟨200, .message "URL permanently deleted"⟩,
          removeFirst (fun u => u._id == id) s) := by
  simp only [handler, noFaults, hm, handleDelete, hid]
  cases hf : findById s id with
  | none => simp
  | some url => simp [ha, findByIdAndDelete, hf]

theorem findById_filter_ne (s : Store) (id : ObjectId) :
    findById (s.filter (fun u => u._id != id)) id = none := by
  unfold findById
  rw [List.find?_eq_none]
  intro u hu
  have := (List.mem_filter.mp hu).2
  simpa using this

theorem findById_filter_other (s : Store) (id j : ObjectId) (hj : j ≠ id) :
    findById (s.filter (fun u => u._id != id)) j = findById s j := by
  unfold findById
  induction s with
  | nil => rfl
  | cons u us ih =>
    by_cases hu : u._id = id
    · have h1 : (u._id != id) = false := by simp [hu]
      have h2 : (u._id == j) = false := by
        have hne : ¬ u._id = j := fun h => hj (h ▸ hu)
        simpa using hne
      simp only [List.filter_cons, List.find?_cons, h1, h2, Bool.false_eq_true, if_false]
      exact ih
    · have h1 : (u._id != id) = true := by simpa using hu
      by_cases huj : u._id = j
      · have h2 : (u._id == j) = true := by simpa using huj
        simp only [List.filter_cons, List.find?_cons, h1, h2, if_true]
      · have h2 : (u._id == j) = false := by simpa using huj
        simp only [List.filter_cons, List.find?_cons, h1, h2, if_true]
        exact ih

/-- C5: a DELETE request with action=permanent for the identifier of an
existing document, whatever its `isDeleted`, `deletedAt` and the current
time, answers 200 and leaves the collection without any document of that
identifier, so that `findById` no longer finds it, and with every other
document as it was; when no document has the identifier it answers 404 and
changes nothing.  Identifiers are pairwise distinct, as the collection
guarantees. -/
theorem permanentDelete_removes (toDate : JsValue → Int) (now : Int) (s : Store)
    (req : Request) (id : ObjectId) (hm : req.method = "DELETE")
    (ha : req.query.action = some "permanent") (hid : req.query.id = some id)
    (hs : UniqueIds s) :
    (∀ url, findById s id = some url →
      handler toDate true noFaults now s req
          = (some ⟨200, .message "URL permanently deleted"⟩,
              s.filter (fun u => u._id != id)) ∧
      findById (handler toDate true noFaults now s req).2 id = none ∧
      ∀ j, j ≠ id → findById (handler toDate true noFaults now s req).2 j = findById s j) ∧
    (findById s id = none →
      handler toDate true noFaults now s req = (some ⟨404, .message "URL not found"⟩, s)) := by
  have key := handler_permanentDelete_eq toDate now s req id hm ha hid
  refine ⟨?_, ?_⟩
  · intro url hf
    rw [key, hf]
    simp only [removeFirst_eq_filter s id hs]
    exact ⟨by trivial, findById_filter_ne s id, fun j hj => findById_filter_other s id j hj⟩
  · intro hf
    rw [key, hf]

/-- A soft-deleted link is removed for good, long after its deletion. -/
theorem permanentDelete_removes_witness :
    (sampleRequest "DELETE" (some "permanent") 2).method = "DELETE" ∧
    (sampleRequest "DELETE" (some "permanent") 2).query.action = some "permanent" ∧
    (sampleRequest "DELETE" (some "permanent") 2).query.id = some 2 ∧
    UniqueIds sampleStore ∧
    handler sampleToDate true noFaults 99999999 sampleStore
        (sampleRequest "DELETE" (some "permanent") 2)
      = (some ⟨200, .message "URL permanently deleted"⟩, [sampleLink, sampleInactive]) :=
  ⟨rfl, rfl, rfl, by decide,
    ((permanentDelete_removes sampleToDate 99999999 sampleStore
      (sampleRequest "DELETE" (some "permanent") 2) 2 rfl rfl rfl (by decide)).1
      sampleDeleted (by decide)).1⟩

/-! ## Edit: the uniqueness check -/

theorem findOneByShortenUrl_of_mem (s : Store) (v : Url) (hs : UniqueShortCodes s)
    (hv : v ∈ s) : findOneByShortenUrl s v.shortenUrl = some v := by
  unfold findOneByShortenUrl
  induction s with
  | nil => simp at hv
  | cons u us ih =>
    have hnd : u.shortenUrl ∉ us.map (fun w => w.shortenUrl) ∧ UniqueShortCodes us := by
      simpa [UniqueShortCodes] using hs
    rcases List.mem_cons.mp hv with h | h
    · subst h
      simp
    · have hne : ¬ u.shortenUrl = v.shortenUrl :=
        fun e => hnd.1 (List.mem_map.mpr ⟨v, h, e.symm⟩)
      have h2 : (u.shortenUrl == v.shortenUrl) = false := by simpa using hne
      simp only [List.find?_cons, h2]
      exact ih hnd.2 h

theorem handler_put_eq (toDate : JsValue → Int) (now : Int) (s : Store) (req : Request)
    (id : ObjectId) (c : String) (hm : req.method = "PUT") (hid : req.query.id = some id)
    (hb : req.body.shortenUrl = .str c) :
    handler toDate true noFaults now s req =
      if c = "" then (some ⟨400, .message "Shorten URL is required"⟩, s)
      else if (findOneByShortenUrl s c).any
          (fun existingUrl => idTextDiffers existingUrl._id req.query) = true
      then (some ⟨400, .message "Shortened URL must be unique"⟩, s)
      else
        match findById s id with
        | none =>
          (some ⟨404, .message "URL not found"⟩,
            (findByIdAndUpdate now s id c (optionalDate toDate req.body.expirationDate)
              (optionalDate toDate req.body.scheduledDate)).2)
        | some _ =>
          (some ⟨200, .message "URL updated successfully"⟩,
            (findByIdAndUpdate now s id c (optionalDate toDate req.body.expirationDate)
              (optionalDate toDate req.body.scheduledDate)).2) := by
  simp only [handler, noFaults, hm, handlePut, hid, hb, JsValue.truthy]
  by_cases hc : c = ""
  · simp [hc]
  · by_cases hx : (findOneByShortenUrl s c).any
        (fun existingUrl => idTextDiffers existingUrl._id req.query) = true
    · simp [hc, hx]
    · cases hf : findById s id with
      | none => simp [hc, hx, findByIdAndUpdate, hf]
      | some url => simp [hc, hx, findByIdAndUpdate, hf]

theorem idTextDiffers_of_ne (existing id : ObjectId) (query : Query)
    (hid : query.id = some id) (hne : existing ≠ id) :
    idTextDiffers existing query = true := by
  have h : (some id == some existing) = false := by
    simpa using fun h : id = existing => hne h.symm
  simp [idTextDiffers, hid, h]

theorem idTextDiffers_self (id : ObjectId) (query : Query) (hid : query.id = some id) :
    idTextDiffers id query = !query.idCanonical := by
  simp [idTextDiffers, hid]

theorem id_of_not_idTextDiffers (existing id : ObjectId) (query : Query)
    (hid : query.id = some id) (h : ¬ idTextDiffers existing query = true) :
    existing = id := by
  by_contra hne
  exact h (idTextDiffers_of_ne existing id query hid hne)

/-- C4, on the code: in a collection with unique short codes, an edit (PUT)
that supplies a non-empty short code held by a document with a different
identifier answers 400 "Shortened URL must be unique".  An edit of an
existing document that supplies its own current short code answers 200 when
the request names the document by the canonical rendering of its identifier,
and 400 "Shortened URL must be unique" when it names it by another rendering
of the same identifier, such as upper-case hexadecimal digits: the check
compares the rendering of the stored identifier with the text of the
parameter. -/
theorem edit_uniqueness_check (toDate : JsValue → Int) (now : Int) (s : Store)
    (req : Request) (id : ObjectId) (c : String) (hm : req.method = "PUT")
    (hid : req.query.id = some id) (hb : req.body.shortenUrl = .str c)
    (hs : UniqueShortCodes s) :
    (c ≠ "" → ∀ v, v ∈ s → v.shortenUrl = c → v._id ≠ id →
      handler toDate true noFaults now s req
        = (some ⟨400, .message "Shortened URL must be unique"⟩, s)) ∧
    (c ≠ "" → req.query.idCanonical = true →
      ∀ url, findById s id = some url → url.shortenUrl = c →
      (handler toDate true noFaults now s req).1
        = some ⟨200, .message "URL updated successfully"⟩) ∧
    (c ≠ "" → req.query.idCanonical = false →
      ∀ url, findById s id = some url → url.shortenUrl = c →
      handler toDate true noFaults now s req
        = (some ⟨400, .message "Shortened URL must be unique"⟩, s)) := by
  have key := handler_put_eq toDate now s req id c hm hid hb
  refine ⟨?_, ?_, ?_⟩
  · intro hc v hv hvc hvid
    have hfind := findOneByShortenUrl_of_mem s v hs hv
    rw [hvc] at hfind
    have hx : (findOneByShortenUrl s c).any
        (fun existingUrl => idTextDiffers existingUrl._id req.query) = true := by
      rw [hfind]
      simpa using idTextDiffers_of_ne v._id id req.query hid hvid
    rw [key, if_neg hc, if_pos hx]
  · intro hc hcan url hf hurl
    have hfind := findOneByShortenUrl_of_mem s url hs (findById_mem s id url hf)
    rw [hurl] at hfind
    have hidu : url._id = id := findById_some_id s id url hf
    have hx : ¬ (findOneByShortenUrl s c).any
        (fun existingUrl => idTextDiffers existingUrl._id req.query) = true := by
      rw [hfind]
      simp [hidu, idTextDiffers_self id req.query hid, hcan]
    rw [key, if_neg hc, if_neg hx, hf]
  · intro hc hcan url hf hurl
    have hfind := findOneByShortenUrl_of_mem s url hs (findById_mem s id url hf)
    rw [hurl] at hfind
    have hidu : url._id = id := findById_some_id s id url hf
    have hx : (findOneByShortenUrl s c).any
        (fun existingUrl => idTextDiffers existingUrl._id req.query) = true := by
      rw [hfind]
      simp [hidu, idTextDiffers_self id req.query hid, hcan]
    rw [key, if_neg hc, if_pos hx]

/-- The first sample link is edited to its own short code by a request that
writes its identifier in upper case: the edit is refused as a duplicate. -/
theorem edit_uniqueness_check_witness :
    (editRequestUpperCase 1 "docs").method = "PUT" ∧
    (editRequestUpperCase 1 "docs").query.id = some 1 ∧
    (editRequestUpperCase 1 "docs").body.shortenUrl = .str "docs" ∧
    UniqueShortCodes sampleStore ∧
    findById sampleStore 1 = some sampleLink ∧
    sampleLink.shortenUrl = "docs" ∧
    handler sampleToDate true noFaults 5000 sampleStore (editRequestUpperCase 1 "docs")
      = (some ⟨400, .message "Shortened URL must be unique"⟩, sampleStore) :=
  ⟨rfl, rfl, rfl, by decide, by decide, rfl,
    (edit_uniqueness_check sampleToDate 5000 sampleStore (editRequestUpperCase 1 "docs") 1
      "docs" rfl rfl rfl (by decide)).2.2 (by decide) rfl sampleLink (by decide) rfl⟩

/-! ## The redirect page -/

theorem any_of_find? (p : Url → Bool) (s : Store) (u : Url) (h : s.find? p = some u) :
    s.any p = true :=
  List.any_eq_true.mpr ⟨u, List.mem_of_find?_eq_some h, List.find?_some h⟩

theorem getServerSideProps_found (schemaDefault : String → Url) (faults : Faults)
    (geo : GeoReply) (currentTime : Int) (s : Store) (context : Context) (u : Url)
    (hc : faults.connect = false) (hr : faults.read = false)
    (hf : findOneByShortenUrl s context.shortUrl = some u) :
    getServerSideProps schemaDefault faults geo currentTime s context =
      if u.isActive = false then (.returned .notFound, s)
      else if faults.write = true then (.returned .notFound, s)
      else
        (.returned (.redirect (normalizeUrl u.originalUrl) false),
          modifyFirst (fun w => w.shortenUrl == context.shortUrl)
            (recordAccess currentTime (visitEvent geo currentTime context.req)) s) := by
  have hany : s.any (fun w => w.shortenUrl == context.shortUrl) = true :=
    any_of_find? _ s u hf
  simp only [getServerSideProps, hc, hr, hf, updateOneAccess, hany, visitEvent]
  by_cases ha : u.isActive = false
  · simp [ha]
  · by_cases hw : faults.write = true
    · simp [ha, hw]
    · simp [ha, hw]

theorem getServerSideProps_redirect_inv (schemaDefault : String → Url) (faults : Faults)
    (geo : GeoReply) (currentTime : Int) (s : Store) (context : Context)
    (destination : String) (permanent : Bool)
    (h : (getServerSideProps schemaDefault faults geo currentTime s context).1
      = .returned (.redirect destination permanent)) :
    faults.connect = false ∧ faults.read = false ∧ faults.write = false ∧
    ∃ u, findOneByShortenUrl s context.shortUrl = some u ∧ u.isActive = true ∧
      destination = normalizeUrl u.originalUrl ∧ permanent = false := by
  have hc : faults.connect = false := by
    cases hc : faults.connect with
    | false => rfl
    | true => simp [getServerSideProps, hc] at h
  have hr : faults.read = false := by
    cases hr : faults.read with
    | false => rfl
    | true => simp [getServerSideProps, hc, hr] at h
  cases hf : findOneByShortenUrl s context.shortUrl with
  | none => simp [getServerSideProps, hc, hr, hf] at h
  | some u =>
    rw [getServerSideProps_found schemaDefault faults geo currentTime s context u hc hr hf] at h
    by_cases ha : u.isActive = false
    · simp [ha] at h
    · by_cases hw : faults.write = true
      · simp [ha, hw] at h
      · simp only [if_neg ha, if_neg hw] at h
        have hd : normalizeUrl u.originalUrl = destination ∧ false = permanent := by
          simpa using h
        exact ⟨hc, hr, by simpa using hw, u, rfl, by simpa using ha, hd.1.symm, hd.2.symm⟩

theorem findOneByShortenUrl_recordAccess (s : Store) (code : String) (now : Int)
    (ev : VisitEvent) :
    findOneByShortenUrl
        (modifyFirst (fun w => w.shortenUrl == code) (recordAccess now ev) s) code
      = (findOneByShortenUrl s code).map (recordAccess now ev) := by
  unfold findOneByShortenUrl
  exact find?_modifyFirst_same _ _ (fun u hu => by simpa [recordAccess, touch] using hu) s

theorem sliceLast_append_singleton (xs : List VisitEvent) (ev : VisitEvent) :
    sliceLast 100 (xs ++ [ev]) = xs.drop (xs.length - 99) ++ [ev] := by
  unfold sliceLast
  have h1 : (xs ++ [ev]).length - 100 = xs.length - 99 := by
    simp only [List.length_append, List.length_singleton]
    omega
  rw [h1, List.drop_append_of_le_length (by omega)]

/-- C3: whenever the page answers with a redirect, the document found for the
short code has afterwards `accesses.count` one higher, and its
`accesses.lastAccessed` is the last 100 elements of the previous log followed
by the event of this visit: its length is `min (previous + 1) 100`, the new
event is last, a log shorter than 100 only grows, and a log of length 100
loses exactly its oldest entry. -/
theorem redirect_records_access (schemaDefault : String → Url) (faults : Faults)
    (geo : GeoReply) (currentTime : Int) (s : Store) (context : Context)
    (destination : String) (permanent : Bool)
    (h : (getServerSideProps schemaDefault faults geo currentTime s context).1
      = .returned (.redirect destination permanent)) :
    ∃ u u1,
      findOneByShortenUrl s context.shortUrl = some u ∧
      findOneByShortenUrl
        (getServerSideProps schemaDefault faults geo currentTime s context).2
        context.shortUrl = some u1 ∧
      u1.accesses.count = u.accesses.count + 1 ∧
      u1.accesses.lastAccessed
        = (u.accesses.lastAccessed ++ [visitEvent geo currentTime context.req]).drop
            ((u.accesses.lastAccessed.length + 1) - 100) ∧
      u1.accesses.lastAccessed.length = min (u.accesses.lastAccessed.length + 1) 100 ∧
      u1.accesses.lastAccessed.getLast? = some (visitEvent geo currentTime context.req) ∧
      (u.accesses.lastAccessed.length < 100 →
        u1.accesses.lastAccessed
          = u.accesses.lastAccessed ++ [visitEvent geo currentTime context.req]) ∧
      (u.accesses.lastAccessed.length = 100 →
        u1.accesses.lastAccessed
          = u.accesses.lastAccessed.tail ++ [visitEvent geo currentTime context.req]) := by
  obtain ⟨hc, hr, hw, u, hf, ha, -, -⟩ :=
    getServerSideProps_redirect_inv schemaDefault faults geo currentTime s context
      destination permanent h
  have hna : ¬ u.isActive = false := by simp [ha]
  have hnw : ¬ faults.write = true := by simp [hw]
  refine ⟨u, recordAccess currentTime (visitEvent geo currentTime context.req) u, hf, ?_,
    rfl, ?_, ?_, ?_, ?_, ?_⟩
  · rw [getServerSideProps_found schemaDefault faults geo currentTime s context u hc hr hf,
      if_neg hna, if_neg hnw]
    simp only [findOneByShortenUrl_recordAccess, hf, Option.map_some']
  · simp [recordAccess, touch, sliceLast]
  · simp only [recordAccess, touch, sliceLast_append_singleton, List.length_append,
      List.length_drop, List.length_singleton]
    omega
  · simp only [recordAccess, touch, sliceLast_append_singleton, List.getLast?_concat]
  · intro hlt
    have h0 : u.accesses.lastAccessed.length - 99 = 0 := by omega
    simp only [recordAccess, touch, sliceLast_append_singleton, h0, List.drop_zero]
  · intro heq
    have h1 : u.accesses.lastAccessed.length - 99 = 1 := by omega
    simp only [recordAccess, touch, sliceLast_append_singleton, h1, List.drop_one]

/-- The first sample link is visited once: the page redirects and the counter
of the link goes up by one. -/
theorem redirect_records_access_witness :
    (getServerSideProps (fun _ => sampleLink) noFaults .failed 5000 sampleStore
        (sampleVisit "docs")).1
      = .returned (.redirect "https://example.com" false) ∧
    ∃ u u1,
      findOneByShortenUrl sampleStore "docs" = some u ∧
      findOneByShortenUrl
        (getServerSideProps (fun _ => sampleLink) noFaults .failed 5000 sampleStore
          (sampleVisit "docs")).2 "docs" = some u1 ∧
      u1.accesses.count = u.accesses.count + 1 ∧
      u1.accesses.lastAccessed.getLast? = some ⟨5000, "Unknown", "Direct", "Unknown"⟩ :=
  ⟨by decide,
    match redirect_records_access (fun _ => sampleLink) noFaults .failed 5000 sampleStore
      (sampleVisit "docs") "https://example.com" false (by decide) with
    | ⟨u, u1, h1, h2, h3, _, _, h6, _⟩ => ⟨u, u1, h1, h2, h3, h6⟩⟩

/-! ## The redirect target -/

theorem hasScheme_iff (d : String) :
    hasScheme d = true ↔
      ∃ p r : List Char, d.toList = p ++ r ∧
        (p.map Char.toLower = "http://".toList ∨ p.map Char.toLower = "https://".toList) := by
  have key : ∀ l : List Char, l.isPrefixOf (d.toList.map Char.toLower) = true ↔
      ∃ p r : List Char, d.toList = p ++ r ∧ p.map Char.toLower = l := by
    intro l
    rw [List.isPrefixOf_iff_prefix]
    constructor
    · rintro ⟨t, ht⟩
      obtain ⟨p, r, h1, h2, -⟩ := List.map_eq_append_iff.mp ht.symm
      exact ⟨p, r, h1, h2⟩
    · rintro ⟨p, r, h1, h2⟩
      exact ⟨r.map Char.toLower, by rw [h1, List.map_append, h2]⟩
  unfold hasScheme
  simp only [Bool.or_eq_true, key]
  constructor
  · rintro (⟨p, r, h1, h2⟩ | ⟨p, r, h1, h2⟩)
    · exact ⟨p, r, h1, Or.inl h2⟩
    · exact ⟨p, r, h1, Or.inr h2⟩
  · rintro ⟨p, r, h1, h2 | h2⟩
    · exact Or.inl ⟨p, r, h1, h2⟩
    · exact Or.inr ⟨p, r, h1, h2⟩

/-- C6: for an active link with stored destination `d`, the page redirects to
`d` itself when `d` begins with the scheme `http://` or `https://` (the test
of the page ignores the case of the letters; a destination that begins with
exactly these characters is covered) and to "https://" followed by `d`
otherwise; the stored destination is left unchanged; "example.com" yields
"https://example.com" and "https://example.com" yields itself. -/
theorem redirect_target_normalized (schemaDefault : String → Url) (geo : GeoReply)
    (currentTime : Int) (s : Store) (context : Context) (u : Url)
    (hf : findOneByShortenUrl s context.shortUrl = some u) (ha : u.isActive = true) :
    (getServerSideProps schemaDefault noFaults geo currentTime s context).1
      = .returned (.redirect
          (if hasScheme u.originalUrl = true then u.originalUrl
            else "https://" ++ u.originalUrl) false) ∧
    (hasScheme u.originalUrl = true ↔
      ∃ p r : List Char, u.originalUrl.toList = p ++ r ∧
        (p.map Char.toLower = "http://".toList ∨ p.map Char.toLower = "https://".toList)) ∧
    (∀ rest : String,
      u.originalUrl = "http://" ++ rest ∨ u.originalUrl = "https://" ++ rest →
      (getServerSideProps schemaDefault noFaults geo currentTime s context).1
        = .returned (.redirect u.originalUrl false)) ∧
    (∃ u1, findOneByShortenUrl
        (getServerSideProps schemaDefault noFaults geo currentTime s context).2
        context.shortUrl = some u1 ∧ u1.originalUrl = u.originalUrl) ∧
    (u.originalUrl = "example.com" →
      (getServerSideProps schemaDefault noFaults geo currentTime s context).1
        = .returned (.redirect "https://example.com" false)) ∧
    (u.originalUrl = "https://example.com" →
      (getServerSideProps schemaDefault noFaults geo currentTime s context).1
        = .returned (.redirect "https://example.com" false)) := by
  have hna : ¬ u.isActive = false := by simp [ha]
  have key := getServerSideProps_found schemaDefault noFaults geo currentTime s context u
    rfl rfl hf
  rw [if_neg hna, if_neg (by simp [noFaults])] at key
  rw [key]
  refine ⟨rfl, hasScheme_iff _, ?_, ?_, ?_, ?_⟩
  · intro rest hrest
    have hs : hasScheme u.originalUrl = true := by
      rw [hasScheme_iff]
      rcases hrest with h | h
      · exact ⟨"http://".toList, rest.toList, by rw [h]; rfl, Or.inl (by decide)⟩
      · exact ⟨"https://".toList, rest.toList, by rw [h]; rfl, Or.inr (by decide)⟩
    simp only [normalizeUrl, hs, if_true]
  · refine ⟨recordAccess currentTime (visitEvent geo currentTime context.req) u, ?_, rfl⟩
    simp only [findOneByShortenUrl_recordAccess, hf, Option.map_some']
  · intro hd
    simp only [hd]
    decide
  · intro hd
    simp only [hd]
    decide

/-- The first sample link stores "example.com" and is redirected to
"https://example.com". -/
theorem redirect_target_normalized_witness :
    findOneByShortenUrl sampleStore "docs" = some sampleLink ∧
    sampleLink.isActive = true ∧
    (getServerSideProps (fun _ => sampleLink) noFaults .failed 5000 sampleStore
        (sampleVisit "docs")).1
      = .returned (.redirect "https://example.com" false) :=
  ⟨by decide, by decide,
    (redirect_target_normalized (fun _ => sampleLink) .failed 5000 sampleStore
      (sampleVisit "docs") sampleLink (by decide) (by decide)).2.2.2.2.1 (by decide)⟩

/-! ## Links that do not redirect -/

/-- C7: when the document found for a short code has `isActive = false`, or
no document is found, the page never answers with a redirect, and, the
database connection being established, it answers not-found and leaves the
collection as it was. -/
theorem inactive_or_missing_not_found (schemaDefault : String → Url) (faults : Faults)
    (geo : GeoReply) (currentTime : Int) (s : Store) (context : Context)
    (h : ∀ u, findOneByShortenUrl s context.shortUrl = some u → u.isActive = false) :
    (∀ destination permanent,
      (getServerSideProps schemaDefault faults geo currentTime s context).1
        ≠ .returned (.redirect destination permanent)) ∧
    (faults.connect = false →
      getServerSideProps schemaDefault faults geo currentTime s context
        = (.returned .notFound, s)) := by
  constructor
  · intro destination permanent hred
    obtain ⟨-, -, -, u, hf, ha, -, -⟩ :=
      getServerSideProps_redirect_inv schemaDefault faults geo currentTime s context
        destination permanent hred
    have := h u hf
    rw [ha] at this
    exact Bool.noConfusion this
  · intro hc
    cases hr : faults.read with
    | true => simp [getServerSideProps, hc, hr]
    | false =>
      cases hf : findOneByShortenUrl s context.shortUrl with
      | none => simp [getServerSideProps, hc, hr, hf]
      | some u =>
        rw [getServerSideProps_found schemaDefault faults geo currentTime s context u hc hr hf,
          if_pos (h u hf)]

/-- The deactivated sample link is answered with not-found. -/
theorem inactive_or_missing_not_found_witness :
    (∀ u, findOneByShortenUrl sampleStore "off" = some u → u.isActive = false) ∧
    getServerSideProps (fun _ => sampleLink) noFaults .failed 5000 sampleStore
        (sampleVisit "off")
      = (.returned .notFound, sampleStore) :=
  ⟨fun u hu => by
      have h0 : findOneByShortenUrl sampleStore "off" = some sampleInactive := by decide
      have e : some sampleInactive = some u := h0.symm.trans hu
      cases e
      rfl,
    (inactive_or_missing_not_found (fun _ => sampleLink) noFaults .failed 5000 sampleStore
      (sampleVisit "off")
      (fun u hu => by
        have h0 : findOneByShortenUrl sampleStore "off" = some sampleInactive := by decide
        have e : some sampleInactive = some u := h0.symm.trans hu
        cases e
        rfl)).2 rfl⟩

/-- C8, as stated, fails: for the first sample link, which is active, the
page redirects when the update succeeds and answers not-found when the
update throws. -/
theorem recording_failure_changes_response :
    findOneByShortenUrl sampleStore "docs" = some sampleLink ∧
    sampleLink.isActive = true ∧
    (getServerSideProps (fun _ => sampleLink) noFaults .failed 5000 sampleStore
        (sampleVisit "docs")).1
      = .returned (.redirect "https://example.com" false) ∧
    (getServerSideProps (fun _ => sampleLink) writeFault .failed 5000 sampleStore
        (sampleVisit "docs")).1
      = .returned .notFound := by
  decide

/-- C8, amended: for an existing active link, when the update that records
the access throws, the error is caught: the page answers not-found, nothing
propagates to the framework, no redirect is returned and the collection is
left as it was. -/
theorem recording_failure_not_found (schemaDefault : String → Url) (faults : Faults)
    (geo : GeoReply) (currentTime : Int) (s : Store) (context : Context) (u : Url)
    (hc : faults.connect = false) (hr : faults.read = false) (hw : faults.write = true)
    (hf : findOneByShortenUrl s context.shortUrl = some u) (ha : u.isActive = true) :
    getServerSideProps schemaDefault faults geo currentTime s context
      = (.returned .notFound, s) := by
  have hna : ¬ u.isActive = false := by simp [ha]
  rw [getServerSideProps_found schemaDefault faults geo currentTime s context u hc hr hf,
    if_neg hna, if_pos hw]

/-- The update for a visit of the first sample link throws: the answer is
not-found. -/
theorem recording_failure_not_found_witness :
    writeFault.connect = false ∧ writeFault.read = false ∧ writeFault.write = true ∧
    findOneByShortenUrl sampleStore "docs" = some sampleLink ∧
    sampleLink.isActive = true ∧
    getServerSideProps (fun _ => sampleLink) writeFault (.data (some "France")) 5000
        sampleStore (sampleVisit "docs")
      = (.returned .notFound, sampleStore) :=
  ⟨rfl, rfl, rfl, by decide, by decide,
    recording_failure_not_found (fun _ => sampleLink) writeFault (.data (some "France")) 5000
      sampleStore (sampleVisit "docs") sampleLink rfl rfl rfl (by decide) (by decide)⟩

/-- C9, as stated, fails: the second sample link has `isDeleted = true` and
is still active, and the page redirects to its destination. -/
theorem soft_deleted_link_redirects :
    findOneByShortenUrl sampleStore "old" = some sampleDeleted ∧
    sampleDeleted.isDeleted = true ∧
    (getServerSideProps (fun _ => sampleLink) noFaults .failed 5000 sampleStore
        (sampleVisit "old")).1
      = .returned (.redirect "https://example.com" false) := by
  decide

/-- C9, amended: `isDeleted` is not consulted on the redirect path.  For a
document with `isDeleted = true`, the page answers not-found exactly when its
`isActive` is false, and redirects to the normalized destination when it is
active; the management listing returns the document in both cases. -/
theorem soft_deleted_redirects_iff_active (schemaDefault : String → Url) (geo : GeoReply)
    (currentTime : Int) (s : Store) (context : Context) (u : Url)
    (hf : findOneByShortenUrl s context.shortUrl = some u) (_hd : u.isDeleted = true) :
    ((getServerSideProps schemaDefault noFaults geo currentTime s context).1
        = .returned .notFound ↔ u.isActive = false) ∧
    (u.isActive = true →
      (getServerSideProps schemaDefault noFaults geo currentTime s context).1
        = .returned (.redirect (normalizeUrl u.originalUrl) false)) ∧
    (∀ (toDate : JsValue → Int) (now : Int) (req : Request),
      req.method = "GET" → req.query.action ≠ some "recent-ten" →
      ∃ docs, (handler toDate true noFaults now s req).1 = some ⟨200, .urls docs⟩ ∧
        u ∈ docs) := by
  have key := getServerSideProps_found schemaDefault noFaults geo currentTime s context u
    rfl rfl hf
  refine ⟨?_, ?_, ?_⟩
  · rw [key]
    by_cases ha : u.isActive = false
    · simp [ha]
    · simp [ha, noFaults]
  · intro ha
    have hna : ¬ u.isActive = false := by simp [ha]
    rw [key, if_neg hna, if_neg (by simp [noFaults])]
  · intro toDate now req hm hact
    refine ⟨s, ?_, List.mem_of_find?_eq_some hf⟩
    simp [handler, noFaults, hm, hact]

/-- The soft-deleted sample link is active, so it redirects. -/
theorem soft_deleted_redirects_iff_active_witness :
    findOneByShortenUrl sampleStore "old" = some sampleDeleted ∧
    sampleDeleted.isDeleted = true ∧
    (getServerSideProps (fun _ => sampleLink) noFaults .failed 5000 sampleStore
        (sampleVisit "old")).1
      = .returned (.redirect (normalizeUrl sampleDeleted.originalUrl) false) :=
  ⟨by decide, by decide,
    (soft_deleted_redirects_iff_active (fun _ => sampleLink) .failed 5000 sampleStore
      (sampleVisit "old") sampleDeleted (by decide) (by decide)).2.1 (by decide)⟩

/-! ## Consistency of the soft-delete flag and the deletion time -/

theorem storeConsistent_modifyFirst (p : Url → Bool) (f : Url → Url) (s : Store)
    (hs : StoreConsistent s) (hf : ∀ u ∈ s, p u = true → Consistent (f u)) :
    StoreConsistent (modifyFirst p f s) := by
  intro v hv
  rcases mem_modifyFirst p f s v hv with h | ⟨u, hu, hpu, rfl⟩
  · exact hs v h
  · exact hf u hu hpu

theorem storeConsistent_removeFirst (p : Url → Bool) (s : Store) (hs : StoreConsistent s) :
    StoreConsistent (removeFirst p s) :=
  fun v hv => hs v (mem_removeFirst p s v hv)

theorem storeConsistent_findOneAndUpdateDeleted (now : Int) (s : Store) (id : ObjectId)
    (hs : StoreConsistent s) : StoreConsistent (findOneAndUpdateDeleted now s id).2 := by
  unfold findOneAndUpdateDeleted
  exact storeConsistent_modifyFirst _ _ s hs (fun u _ _ => by simp [Consistent, touch])

theorem storeConsistent_findByIdAndDelete (s : Store) (id : ObjectId)
    (hs : StoreConsistent s) : StoreConsistent (findByIdAndDelete s id).2 := by
  unfold findByIdAndDelete
  exact storeConsistent_removeFirst _ s hs

theorem storeConsistent_findByIdAndUpdate (now : Int) (s : Store) (id : ObjectId)
    (c : String) (e d : Option Int) (hs : StoreConsistent s) :
    StoreConsistent (findByIdAndUpdate now s id c e d).2 := by
  unfold findByIdAndUpdate
  refine storeConsistent_modifyFirst _ _ s hs (fun u hu _ => ?_)
  have := hs u hu
  simpa [Consistent, touch] using this

theorem storeConsistent_save_restored (now : Int) (s : Store) (url : Url)
    (hs : StoreConsistent s) :
    StoreConsistent (save now s { url with deletedAt := none, isDeleted := false }) := by
  unfold save
  exact storeConsistent_modifyFirst _ _ s hs (fun u _ _ => by simp [Consistent, touch])

theorem storeConsistent_handleDelete (faults : Faults) (now : Int) (s : Store)
    (req : Request) (hs : StoreConsistent s) :
    StoreConsistent (handleDelete faults now s req).2 := by
  unfold handleDelete
  repeat' split
  all_goals first
    | exact hs
    | (rename_i heq
       have h2 := congrArg Prod.snd heq
       simp only at h2
       rw [← h2]
       first
         | exact storeConsistent_findOneAndUpdateDeleted now s _ hs
         | exact storeConsistent_findByIdAndDelete s _ hs)

theorem storeConsistent_handlePut (toDate : JsValue → Int) (faults : Faults) (now : Int)
    (s : Store) (req : Request) (hs : StoreConsistent s) :
    StoreConsistent (handlePut toDate faults now s req).2 := by
  unfold handlePut
  repeat' split
  all_goals first
    | exact hs
    | (rename_i heq
       have h2 := congrArg Prod.snd heq
       simp only at h2
       rw [← h2]
       exact storeConsistent_findByIdAndUpdate now s _ _ _ _ hs)

theorem storeConsistent_handleRestore (faults : Faults) (now : Int) (s : Store)
    (req : Request) (hs : StoreConsistent s) :
    StoreConsistent (handleRestore faults now s req).2 := by
  unfold handleRestore
  repeat' split
  all_goals first
    | exact hs
    | exact storeConsistent_save_restored now s _ hs

theorem storeConsistent_handler (toDate : JsValue → Int) (isAuthenticated : Bool)
    (faults : Faults) (now : Int) (s : Store) (req : Request) (hs : StoreConsistent s) :
    StoreConsistent (handler toDate isAuthenticated faults now s req).2 := by
  unfold handler
  repeat' split
  all_goals first
    | exact hs
    | exact storeConsistent_handleDelete faults now s req hs
    | exact storeConsistent_handlePut toDate faults now s req hs
    | exact storeConsistent_handleRestore faults now s req hs

theorem storeConsistent_getServerSideProps (schemaDefault : String → Url) (faults : Faults)
    (geo : GeoReply) (currentTime : Int) (s : Store) (context : Context)
    (hs : StoreConsistent s) :
    StoreConsistent (getServerSideProps schemaDefault faults geo currentTime s context).2 := by
  cases hc : faults.connect with
  | true => simpa [getServerSideProps, hc] using hs
  | false =>
    cases hr : faults.read with
    | true => simpa [getServerSideProps, hc, hr] using hs
    | false =>
      cases hf : findOneByShortenUrl s context.shortUrl with
      | none => simpa [getServerSideProps, hc, hr, hf] using hs
      | some u =>
        rw [getServerSideProps_found schemaDefault faults geo currentTime s context u hc hr hf]
        repeat' split
        all_goals first
          | exact hs
          | (refine storeConsistent_modifyFirst _ _ s hs (fun w hw _ => ?_)
             have := hs w hw
             simpa [Consistent, recordAccess, touch] using this)

/-- C10: the agreement of `isDeleted` with `deletedAt` is an invariant of the
collection.  If every document satisfies `isDeleted = true` exactly when
`deletedAt` is set, then so does every document after any request to the
management endpoint (listing, soft delete, permanent delete, edit, restore
or any other, authenticated or not, answered with success or with an error,
with or without database errors) and after any visit of the redirect page. -/
theorem deleted_flag_consistency_invariant (toDate : JsValue → Int)
    (schemaDefault : String → Url) (isAuthenticated : Bool) (faults : Faults)
    (geo : GeoReply) (now : Int) (s : Store) (req : Request) (context : Context)
    (hs : StoreConsistent s) :
    StoreConsistent (handler toDate isAuthenticated faults now s req).2 ∧
    StoreConsistent (getServerSideProps schemaDefault faults geo now s context).2 :=
  ⟨storeConsistent_handler toDate isAuthenticated faults now s req hs,
    storeConsistent_getServerSideProps schemaDefault faults geo now s context hs⟩

/-- The sample collection is consistent and stays so when its first link is
soft-deleted. -/
theorem deleted_flag_consistency_invariant_witness :
    StoreConsistent sampleStore ∧
    StoreConsistent (handler sampleToDate true noFaults 5000 sampleStore
      (sampleRequest "DELETE" none 1)).2 :=
  ⟨by decide,
    (deleted_flag_consistency_invariant sampleToDate (fun _ => sampleLink) true noFaults
      .failed 5000 sampleStore (sampleRequest "DELETE" none 1) (sampleVisit "docs")
      (by decide)).1⟩

/-! ## Edit: uniqueness of short codes is preserved -/

theorem uniqueShortCodes_modifyFirst (s : Store) (id : ObjectId) (c : String)
    (f : Url → Url) (hs : UniqueShortCodes s) (hid : UniqueIds s)
    (hf : ∀ u, (f u).shortenUrl = c)
    (hfree : ∀ v ∈ s, v.shortenUrl = c → v._id = id) :
    UniqueShortCodes (modifyFirst (fun u => u._id == id) f s) := by
  induction s with
  | nil => simpa [modifyFirst] using hs
  | cons u us ih =>
    have hcs : u.shortenUrl ∉ us.map (fun w => w.shortenUrl) ∧ UniqueShortCodes us := by
      simpa [UniqueShortCodes] using hs
    have hids : u._id ∉ us.map (fun w => w._id) ∧ UniqueIds us := by
      simpa [UniqueIds] using hid
    by_cases hu : u._id = id
    · have hp : (u._id == id) = true := by simpa using hu
      simp only [modifyFirst, hp, if_true]
      have hnot : (f u).shortenUrl ∉ us.map (fun w => w.shortenUrl) := by
        intro hmem
        obtain ⟨w, hw, hwc⟩ := List.mem_map.mp hmem
        have hwid : w._id = id :=
          hfree w (List.mem_cons_of_mem _ hw) (hwc.trans (hf u))
        exact hids.1 (List.mem_map.mpr ⟨w, hw, hwid.trans hu.symm⟩)
      exact List.nodup_cons.mpr ⟨hnot, hcs.2⟩
    · have hp : (u._id == id) = false := by simpa using hu
      simp only [modifyFirst, hp, Bool.false_eq_true, if_false]
      have ih1 := ih hcs.2 hids.2 (fun v hv hvc => hfree v (List.mem_cons_of_mem _ hv) hvc)
      have hnot : u.shortenUrl ∉
          (modifyFirst (fun u => u._id == id) f us).map (fun w => w.shortenUrl) := by
        intro hmem
        obtain ⟨v, hv, hvc⟩ := List.mem_map.mp hmem
        rcases mem_modifyFirst _ f us v hv with h | ⟨w, _, _, rfl⟩
        · exact hcs.1 (List.mem_map.mpr ⟨v, h, hvc⟩)
        · have huc : u.shortenUrl = c := hvc.symm.trans (hf w)
          exact hu (hfree u (List.mem_cons_self _ _) huc)
      exact List.nodup_cons.mpr ⟨hnot, ih1⟩

theorem uniqueShortCodes_findByIdAndUpdate (now : Int) (s : Store) (id : ObjectId)
    (query : Query) (c : String) (e d : Option Int) (hs : UniqueShortCodes s)
    (hid : UniqueIds s) (hq : query.id = some id)
    (hx : ¬ (findOneByShortenUrl s c).any
      (fun existingUrl => idTextDiffers existingUrl._id query) = true) :
    UniqueShortCodes (findByIdAndUpdate now s id c e d).2 := by
  unfold findByIdAndUpdate
  refine uniqueShortCodes_modifyFirst s id c _ hs hid (fun _ => rfl) ?_
  intro v hv hvc
  have hfind := findOneByShortenUrl_of_mem s v hs hv
  rw [hvc] at hfind
  rw [hfind] at hx
  exact id_of_not_idTextDiffers v._id id query hq (by simpa using hx)

theorem handlePut_store (toDate : JsValue → Int) (faults : Faults) (now : Int) (s : Store)
    (req : Request) :
    (handlePut toDate faults now s req).2 = s ∨
    ∃ id c, req.query.id = some id ∧
      ¬ (findOneByShortenUrl s c).any
        (fun existingUrl => idTextDiffers existingUrl._id req.query) = true ∧
      (handlePut toDate faults now s req).2
        = (findByIdAndUpdate now s id c (optionalDate toDate req.body.expirationDate)
            (optionalDate toDate req.body.scheduledDate)).2 := by
  unfold handlePut
  repeat' split
  all_goals first
    | exact Or.inl rfl
    | (rename_i heq
       exact Or.inr ⟨_, _, by assumption, by assumption, (congrArg Prod.snd heq).symm⟩)

/-- C11: uniqueness of short codes is preserved by edit.  In a collection in
which no two documents share a short code, soft-deleted documents included,
any PUT request (any identifier, any body, authenticated or not, with or
without database errors) leaves a collection in which no two documents share
a short code.  Identifiers are pairwise distinct, as the collection
guarantees. -/
theorem edit_preserves_unique_shortCodes (toDate : JsValue → Int) (isAuthenticated : Bool)
    (faults : Faults) (now : Int) (s : Store) (req : Request) (hm : req.method = "PUT")
    (hs : UniqueShortCodes s) (hid : UniqueIds s) :
    UniqueShortCodes (handler toDate isAuthenticated faults now s req).2 := by
  have hput : UniqueShortCodes (handlePut toDate faults now s req).2 := by
    rcases handlePut_store toDate faults now s req with h | ⟨id, c, hq, hx, h⟩
    · rw [h]
      exact hs
    · rw [h]
      exact uniqueShortCodes_findByIdAndUpdate now s id req.query c _ _ hs hid hq hx
  unfold handler
  cases isAuthenticated with
  | false => simpa using hs
  | true =>
    cases hc : faults.connect with
    | true => simpa using hs
    | false => simpa [hm] using hput

/-- The first sample link is given a new short code; short codes stay
pairwise distinct. -/
theorem edit_preserves_unique_shortCodes_witness :
    (editRequest 1 "fresh").method = "PUT" ∧
    UniqueShortCodes sampleStore ∧
    UniqueIds sampleStore ∧
    UniqueShortCodes (handler sampleToDate true noFaults 5000 sampleStore
      (editRequest 1 "fresh")).2 :=
  ⟨rfl, by decide, by decide,
    edit_preserves_unique_shortCodes sampleToDate true noFaults 5000 sampleStore
      (editRequest 1 "fresh") rfl (by decide) (by decide)⟩

/-! ## Edit: what a successful edit changes -/

theorem modifyFirst_of_find?_none (p : Url → Bool) (f : Url → Url) (s : Store)
    (h : s.find? p = none) : modifyFirst p f s = s := by
  induction s with
  | nil => rfl
  | cons u us ih =>
    by_cases hu : p u = true
    · simp [List.find?_cons, hu] at h
    · have hu2 : p u = false := by simpa using hu
      simp only [List.find?_cons, hu2] at h
      simp only [modifyFirst, hu2, Bool.false_eq_true, if_false, ih h]

theorem filter_not_modifyFirst (p : Url → Bool) (f : Url → Url) (s : Store)
    (hf : ∀ u, p u = true → p (f u) = true) :
    (modifyFirst p f s).filter (fun u => !p u) = s.filter (fun u => !p u) := by
  induction s with
  | nil => rfl
  | cons u us ih =>
    by_cases hu : p u = true
    · simp [modifyFirst, List.filter_cons, hu, hf u hu]
    · have hu2 : p u = false := by simpa using hu
      simp [modifyFirst, List.filter_cons, hu2, ih]

theorem handler_put_success (toDate : JsValue → Int) (now : Int) (s : Store) (req : Request)
    (id : ObjectId) (hm : req.method = "PUT") (hid : req.query.id = some id)
    (hok : (handler toDate true noFaults now s req).1
      = some ⟨200, .message "URL updated successfully"⟩) :
    ∃ c u, req.body.shortenUrl = .str c ∧ c ≠ "" ∧ findById s id = some u ∧
      (handler toDate true noFaults now s req).2
        = modifyFirst (fun w => w._id == id)
            (fun w => { w with shortenUrl := c
                               expirationDate := optionalDate toDate req.body.expirationDate
                               scheduledDate := optionalDate toDate req.body.scheduledDate
                               updatedAt := now }) s := by
  cases hb : req.body.shortenUrl with
  | str c =>
    have key := handler_put_eq toDate now s req id c hm hid hb
    rw [key] at hok ⊢
    by_cases hc : c = ""
    · rw [if_pos hc] at hok
      simp at hok
    · rw [if_neg hc] at hok ⊢
      by_cases hx : (findOneByShortenUrl s c).any
          (fun existingUrl => idTextDiffers existingUrl._id req.query) = true
      · rw [if_pos hx] at hok
        simp at hok
      · rw [if_neg hx] at hok ⊢
        cases hf : findById s id with
        | none =>
          rw [hf] at hok
          simp at hok
        | some u => exact ⟨c, u, rfl, hc, rfl, rfl⟩
  | undefined => simp [handler, noFaults, hm, handlePut, hid, hb, JsValue.truthy] at hok
  | null => simp [handler, noFaults, hm, handlePut, hid, hb, JsValue.truthy] at hok
  | obj => simp [handler, noFaults, hm, handlePut, hid, hb, JsValue.truthy] at hok
  | bool b =>
    cases b <;> simp [handler, noFaults, hm, handlePut, hid, hb, JsValue.truthy] at hok
  | num n =>
    by_cases hn : n = 0 <;>
      simp [handler, noFaults, hm, handlePut, hid, hb, JsValue.truthy, hn] at hok

/-- C12, as stated, fails: no sample link has identifier 99, and the edit of
identifier 99 to the short code of the second sample link is answered 400
"Shortened URL must be unique", not 404. -/
theorem edit_missing_id_duplicate_code :
    findById sampleStore 99 = none ∧
    handler sampleToDate true noFaults 5000 sampleStore (editRequest 99 "old")
      = (some ⟨400, .message "Shortened URL must be unique"⟩, sampleStore) := by
  decide

/-- C12, amended: after a successful edit (PUT answered 200) of identifier
`id`, the document has the supplied short code, its `expirationDate` and
`scheduledDate` are the times of the supplied dates, or null for a field that
was not supplied (whatever it held before), every other field of the
document apart from the store-maintained `updatedAt` is as before, and every
other document is unchanged.  When `id` does not resolve, the edit is
answered 404 if the supplied short code is a non-empty string that no
document holds, and 400 "Shortened URL must be unique" if some document holds
it. -/
theorem edit_effect (toDate : JsValue → Int) (now : Int) (s : Store) (req : Request)
    (id : ObjectId) (hm : req.method = "PUT") (hid : req.query.id = some id) :
    ((handler toDate true noFaults now s req).1
        = some ⟨200, .message "URL updated successfully"⟩ →
      ∃ c u, req.body.shortenUrl = .str c ∧ findById s id = some u ∧
        findById (handler toDate true noFaults now s req).2 id
          = some { u with shortenUrl := c
                          expirationDate := optionalDate toDate req.body.expirationDate
                          scheduledDate := optionalDate toDate req.body.scheduledDate
                          updatedAt := now } ∧
        (∀ j, j ≠ id →
          findById (handler toDate true noFaults now s req).2 j = findById s j) ∧
        (handler toDate true noFaults now s req).2.filter (fun w => w._id != id)
          = s.filter (fun w => w._id != id)) ∧
    optionalDate toDate .undefined = none ∧
    optionalDate toDate .null = none ∧
    (∀ d : String, d ≠ "" → optionalDate toDate (.str d) = some (toDate (.str d))) ∧
    (findById s id = none → ∀ c, req.body.shortenUrl = .str c → c ≠ "" →
      findOneByShortenUrl s c = none →
      handler toDate true noFaults now s req = (some ⟨404, .message "URL not found"⟩, s)) ∧
    (findById s id = none → ∀ c v, req.body.shortenUrl = .str c → c ≠ "" →
      findOneByShortenUrl s c = some v →
      handler toDate true noFaults now s req
        = (some ⟨400, .message "Shortened URL must be unique"⟩, s)) := by
  refine ⟨?_, rfl, rfl, ?_, ?_, ?_⟩
  · intro hok
    obtain ⟨c, u, hb, -, hf, hstore⟩ := handler_put_success toDate now s req id hm hid hok
    refine ⟨c, u, hb, hf, ?_, ?_, ?_⟩
    · rw [hstore, findById_modify, hf]
      · rfl
      · intro _ h
        exact h
    · intro j hj
      rw [hstore]
      exact findById_modify_ne s id j _ (fun _ h => h) hj
    · rw [hstore]
      have h := filter_not_modifyFirst (fun w => w._id == id)
        (fun w => { w with shortenUrl := c
                           expirationDate := optionalDate toDate req.body.expirationDate
                           scheduledDate := optionalDate toDate req.body.scheduledDate
                           updatedAt := now }) s (fun _ h => h)
      exact h
  · intro d hd
    simp [optionalDate, JsValue.truthy, hd]
  · intro hf c hb hc hfree
    rw [handler_put_eq toDate now s req id c hm hid hb, if_neg hc, hfree, hf]
    have hx : ¬ (none : Option Url).any
        (fun existingUrl => idTextDiffers existingUrl._id req.query) = true := by
      simp
    rw [if_neg hx]
    simp only [findByIdAndUpdate]
    rw [modifyFirst_of_find?_none _ _ s hf]
  · intro hf c v hb hc hheld
    rw [handler_put_eq toDate now s req id c hm hid hb, if_neg hc, hheld]
    have hne : v._id ≠ id := by
      intro h
      have hmem : v ∈ s := List.mem_of_find?_eq_some hheld
      have := List.find?_eq_none.mp hf v hmem
      simp [h] at this
    have hx : (some v).any
        (fun existingUrl => idTextDiffers existingUrl._id req.query) = true := by
      simpa using idTextDiffers_of_ne v._id id req.query hid hne
    rw [if_pos hx]

/-- An edit of an identifier that no sample link has, to a short code that no
sample link holds, is answered 404. -/
theorem edit_effect_witness :
    (editRequest 99 "fresh").method = "PUT" ∧
    (editRequest 99 "fresh").query.id = some 99 ∧
    handler sampleToDate true noFaults 5000 sampleStore (editRequest 99 "fresh")
      = (some ⟨404, .message "URL not found"⟩, sampleStore) :=
  ⟨rfl, rfl,
    (edit_effect sampleToDate 5000 sampleStore (editRequest 99 "fresh") 99 rfl rfl).2.2.2.2.1
      (by decide) "fresh" rfl (by decide) (by decide)⟩

/-! ## Errors of the database on the redirect page -/

/-- C13, on the code: an error of `dbConnect`, which the page awaits before
its `try`, is not answered with not-found: it propagates out of the page
function, whatever the short code and the collection.  An error of the lookup
`Url.findOne`, inside the `try`, is caught and answered with not-found, the
collection being left as it was. -/
theorem lookup_error_outcomes (schemaDefault : String → Url) (geo : GeoReply)
    (currentTime : Int) (s : Store) (context : Context) (r w : Bool) :
    getServerSideProps schemaDefault ⟨true, r, w⟩ geo currentTime s context = (.threw, s) ∧
    getServerSideProps schemaDefault ⟨false, true, w⟩ geo currentTime s context
      = (.returned .notFound, s) := by
  constructor
  · simp [getServerSideProps]
  · simp [getServerSideProps]

/-! ## Soft delete followed by restore -/

theorem modifyFirst_modifyFirst (p : Url → Bool) (f g : Url → Url) (s : Store)
    (hf : ∀ u, p u = true → p (f u) = true) :
    modifyFirst p g (modifyFirst p f s) = modifyFirst p (fun u => g (f u)) s := by
  induction s with
  | nil => rfl
  | cons u us ih =>
    by_cases hu : p u = true
    · simp [modifyFirst, hu, hf u hu]
    · have hu2 : p u = false := by simpa using hu
      simp [modifyFirst, hu2, ih]

theorem modifyFirst_congr_first (p : Url → Bool) (f g : Url → Url) (s : Store) (u : Url)
    (hfind : s.find? p = some u) (hfg : f u = g u) :
    modifyFirst p f s = modifyFirst p g s := by
  induction s with
  | nil => rfl
  | cons v vs ih =>
    by_cases hv : p v = true
    · simp only [List.find?_cons, hv] at hfind
      have hvu : v = u := Option.some.inj hfind
      subst hvu
      simp only [modifyFirst, hv, if_true, hfg]
    · have hv2 : p v = false := by simpa using hv
      simp only [List.find?_cons, hv2] at hfind
      simp only [modifyFirst, hv2, Bool.false_eq_true, if_false, ih hfind]

/-- C14: soft delete followed by restore is a round trip.  For a document
with `isDeleted = false` and `deletedAt = null`, a soft delete at time `t`
and a restore at a time `t1` with `t1 ≤ t + 3600000` (in particular any
`t ≤ t1 ≤ t + 3600000`) are both answered 200, and the collection afterwards
is the original one in which that document differs only in the
store-maintained `updatedAt`: every other field of it and every other
document are as before. -/
theorem softDelete_restore_roundtrip (toDate : JsValue → Int) (t t1 : Int) (s : Store)
    (reqD reqR : Request) (id : ObjectId) (u : Url)
    (hmD : reqD.method = "DELETE") (haD : reqD.query.action ≠ some "permanent")
    (hidD : reqD.query.id = some id)
    (hmR : reqR.method = "POST") (haR : reqR.query.action = some "restore")
    (hidR : reqR.query.id = some id)
    (hf : findById s id = some u) (hd : u.isDeleted = false) (hn : u.deletedAt = none)
    (ht : t1 ≤ t + 3600000) :
    (handler toDate true noFaults t s reqD).1
      = some ⟨200, .message "URL deleted successfully"⟩ ∧
    (handler toDate true noFaults t1 (handler toDate true noFaults t s reqD).2 reqR).1
      = some ⟨200, .message "URL restored successfully"⟩ ∧
    (handler toDate true noFaults t1 (handler toDate true noFaults t s reqD).2 reqR).2
      = modifyFirst (fun w => w._id == id) (fun w => { w with updatedAt := t1 }) s ∧
    findById (handler toDate true noFaults t1 (handler toDate true noFaults t s reqD).2 reqR).2
        id = some { u with updatedAt := t1 } ∧
    (∀ j, j ≠ id →
      findById
          (handler toDate true noFaults t1 (handler toDate true noFaults t s reqD).2 reqR).2 j
        = findById s j) ∧
    (handler toDate true noFaults t1 (handler toDate true noFaults t s reqD).2 reqR).2.filter
        (fun w => w._id != id)
      = s.filter (fun w => w._id != id) := by
  have hnd : ¬ u.isDeleted = true := by simp [hd]
  have hidu : u._id = id := findById_some_id s id u hf
  have hD := handler_softDelete_eq toDate t s reqD id hmD haD hidD
  rw [hf] at hD
  simp only [if_neg hnd] at hD
  have hf1 : findById (handler toDate true noFaults t s reqD).2 id
      = some { u with isDeleted := true, deletedAt := some t, updatedAt := t } := by
    rw [hD]
    simp only
    rw [findById_modify, hf]
    · rfl
    · intro _ h
      exact h
  have hw : t1 - t ≤ 3600000 := by omega
  have hR := handler_restore_eq toDate t1 (handler toDate true noFaults t s reqD).2 reqR id
    hmR haR hidR
  rw [hf1] at hR
  simp only [if_pos hw] at hR
  have hstore :
      (handler toDate true noFaults t1 (handler toDate true noFaults t s reqD).2 reqR).2
        = modifyFirst (fun w => w._id == id) (fun w => { w with updatedAt := t1 }) s := by
    rw [hR, hD]
    simp only [save, hidu]
    rw [modifyFirst_modifyFirst]
    · refine modifyFirst_congr_first _ _ _ s u hf ?_
      cases u
      simp only [touch] at hd hn hidu ⊢
      simp [hd, hn, hidu]
    · intro _ h
      exact h
  refine ⟨?_, ?_, hstore, ?_, ?_, ?_⟩
  · rw [hD]
  · rw [hR]
  · rw [hstore, findById_modify, hf]
    · rfl
    · intro _ h
      exact h
  · intro j hj
    rw [hstore]
    exact findById_modify_ne s id j _ (fun _ h => h) hj
  · rw [hstore]
    exact filter_not_modifyFirst (fun w => w._id == id)
      (fun w => { w with updatedAt := t1 }) s (fun _ h => h)

/-- The first sample link is soft-deleted at time 5000 and restored half an
hour later: it is as before, up to `updatedAt`. -/
theorem softDelete_restore_roundtrip_witness :
    (sampleRequest "DELETE" none 1).method = "DELETE" ∧
    (sampleRequest "DELETE" none 1).query.action ≠ some "permanent" ∧
    (sampleRequest "POST" (some "restore") 1).query.action = some "restore" ∧
    findById sampleStore 1 = some sampleLink ∧
    sampleLink.isDeleted = false ∧ sampleLink.deletedAt = none ∧
    (1805000 : Int) ≤ 5000 + 3600000 ∧
    findById
        (handler sampleToDate true noFaults 1805000
          (handler sampleToDate true noFaults 5000 sampleStore
            (sampleRequest "DELETE" none 1)).2
          (sampleRequest "POST" (some "restore") 1)).2 1
      = some { sampleLink with updatedAt := 1805000 } :=
  ⟨rfl, by decide, rfl, by decide, rfl, rfl, by decide,
    (softDelete_restore_roundtrip sampleToDate 5000 1805000 sampleStore
      (sampleRequest "DELETE" none 1) (sampleRequest "POST" (some "restore") 1) 1 sampleLink
      rfl (by decide) rfl rfl rfl rfl (by decide) rfl rfl (by decide)).2.2.2.1⟩

/-! ## The country of a visit -/

/-- C15: the country resolved by `getCountryByIp` does not depend on its `ip`
argument: for the same behaviour of the lookup service any two addresses give
the same country; the event recorded for a visit, the answer of the page and
the collection afterwards are the same for two requests that differ only in
the forwarded-for header and the remote addresses; and the result is
"Unknown" whenever the lookup fails or returns no country. -/
theorem country_independent_of_ip (schemaDefault : String → Url) (faults : Faults)
    (geo : GeoReply) (currentTime : Int) (s : Store) (code : String)
    (userAgent referer : Option String)
    (forwarded1 forwarded2 connection1 connection2 socket1 socket2 ip1 ip2 : Option String) :
    getCountryByIp geo ip1 = getCountryByIp geo ip2 ∧
    visitEvent geo currentTime ⟨⟨forwarded1, userAgent, referer⟩, connection1, socket1⟩
      = visitEvent geo currentTime ⟨⟨forwarded2, userAgent, referer⟩, connection2, socket2⟩ ∧
    getServerSideProps schemaDefault faults geo currentTime s
        ⟨code, ⟨⟨forwarded1, userAgent, referer⟩, connection1, socket1⟩⟩
      = getServerSideProps schemaDefault faults geo currentTime s
        ⟨code, ⟨⟨forwarded2, userAgent, referer⟩, connection2, socket2⟩⟩ ∧
    getCountryByIp .failed ip1 = "Unknown" ∧
    getCountryByIp (.data none) ip1 = "Unknown" ∧
    getCountryByIp (.data (some "")) ip1 = "Unknown" ∧
    (∀ country : String, country ≠ "" →
      getCountryByIp (.data (some country)) ip1 = country) := by
  refine ⟨rfl, rfl, rfl, rfl, rfl, rfl, ?_⟩
  intro country hc
  simp [getCountryByIp, orDefault, hc]

end Share
